import Mathlib

/-!
Verification of the calculator application in `script.js`.

The JavaScript source is shallowly embedded here.  JavaScript strings are
modelled as `List Char` (abbreviated `Str`); JavaScript numbers, which the
program only ever produces by evaluating whitelisted arithmetic expressions,
are modelled as exact integer fractions (`Frac`).  The IEEE-754 rounding
error of doubles is outside this model; on every input appearing in a
theorem below the double computation and the exact computation agree digit
for digit.  Fallible steps (syntax errors raised by `new Function`,
`JSON.parse` failures) are modelled with `Option`.  The DOM is reduced to
the three display strings the handlers write; the persistence collaborator
(`localStorage`) is treated per the specification as an external key-value
store: `saveHistory`'s write is the identity on the in-memory log it
truncates, and `loadHistory` is modelled separately as a function of the
stored value.
-/

/-- JavaScript strings are modelled as lists of characters. -/
abbrev Str := List Char

/-- Embed a Lean string literal as a `Str`. -/
def str (s : String) : Str := s.data

/-- The four calculation operator characters `+ - * /`
(the character class of the regexes in `script.js`). -/
def isOpC (c : Char) : Bool :=
  c == '+' || c == '-' || c == '*' || c == '/'

/-- Characters allowed by the evaluator whitelist `^[0-9+\-*/.()]+$`. -/
def validChar (c : Char) : Bool :=
  c.isDigit || isOpC c || c == '.' || c == '(' || c == ')'

/-- `expr.replace(/×/g,'*').replace(/÷/g,'/')`: display glyphs to
canonical computation operators (all characters have width one). -/
def toCalcOps (s : Str) : Str :=
  s.map (fun c => if c = '×' then '*' else if c = '÷' then '/' else c)

/-- `expr.replace(/\*/g,'×').replace(/\//g,'÷')`: canonical operators to
display glyphs. -/
def glyphs (s : Str) : Str :=
  s.map (fun c => if c = '*' then '×' else if c = '/' then '÷' else c)

/-- The regex `^\d+(\.\d+)?$` used by `updateDisplay` and
`renderExpressionHTML` to recognise a numeric literal token. -/
def numLitB (v : Str) : Bool :=
  let ds := v.takeWhile Char.isDigit
  let rest := v.drop ds.length
  ds ≠ [] &&
    (rest = [] ||
      (rest.head? = some '.' && rest.tail ≠ [] && rest.tail.all Char.isDigit))

/-- The regex `^\d*\.?\d*$` from the specification's data model for
`currentInput`: only digits and at most one decimal point. -/
def inputLikeB (s : Str) : Bool :=
  s.all (fun c => c.isDigit || c == '.') && s.count '.' ≤ 1

/-! ## Numbers

JavaScript doubles are modelled as exact fractions `Frac` of integers,
unnormalised, where a zero denominator encodes a non-finite value
(`Infinity` when the numerator is nonzero, `NaN` when it is zero).  With
the operations below this matches IEEE behaviour wherever the final
result is finite: for example `1/(1/0)` is `⟨0, 1⟩ = 0` just as
`1/Infinity` is `0` in JavaScript, and every non-finite value fails the
final `isFinite` check exactly like `Infinity`/`NaN` do.  Rounding error
of doubles is outside the model (the digit strings agree on every input
any theorem below evaluates), as is overflow to `Infinity`. -/

structure Frac where
  num : Int
  den : Int
deriving DecidableEq, Repr

/-- Embed an integer. -/
def Frac.ofInt (n : Int) : Frac := ⟨n, 1⟩

/-- JavaScript `+` on numbers. -/
def fAdd (a b : Frac) : Frac := ⟨a.num * b.den + b.num * a.den, a.den * b.den⟩

/-- JavaScript binary `-` on numbers. -/
def fSub (a b : Frac) : Frac := ⟨a.num * b.den - b.num * a.den, a.den * b.den⟩

/-- JavaScript `*` on numbers. -/
def fMul (a b : Frac) : Frac := ⟨a.num * b.num, a.den * b.den⟩

/-- JavaScript `/` on numbers: dividing by zero yields a zero
denominator, the non-finite marker. -/
def fDiv (a b : Frac) : Frac := ⟨a.num * b.den, a.den * b.num⟩

/-- JavaScript unary `-` on numbers. -/
def fNeg (a : Frac) : Frac := ⟨-a.num, a.den⟩

/-- JavaScript `**`.  Integer exponents are computed exactly; a
non-integer or non-finite exponent, whose JavaScript value is an
arbitrary double, is outside the exact-fraction model and is mapped to
the non-finite marker `⟨0, 0⟩` (each claim below only ever evaluates
integer exponents). -/
def fPow (a b : Frac) : Frac :=
  if b.den ≠ 0 ∧ b.den ∣ b.num then
    let e := b.num / b.den
    if 0 ≤ e then ⟨a.num ^ e.toNat, a.den ^ e.toNat⟩
    else ⟨a.den ^ (-e).toNat, a.num ^ (-e).toNat⟩
  else ⟨0, 0⟩

/-! ## Tokens of the arithmetic evaluator

`evaluateExpression` hands the sanitised string to `new Function('return ' +
s)()`.  On the whitelisted character set the JavaScript lexer produces
numeric literals, the punctuators `+ - * / ** ++ -- ( )` (maximal munch),
and nothing else.  `++`/`--` can never be parsed further in an expression
made of literals, so they are kept as tokens that the parser always
rejects, exactly like the JavaScript `SyntaxError`. -/

inductive Tok where
  | num (q : Frac)
  | plus
  | minus
  | star
  | slash
  | pow
  | dplus
  | dminus
  | lparen
  | rparen
deriving DecidableEq, Repr

/-- Digit list (most significant first) to its natural number value. -/
def digitsVal (ds : Str) : Nat :=
  ds.foldl (fun acc c => 10 * acc + (c.toNat - '0'.toNat)) 0

/-- Lex a numeric literal `digits* ('.' digits*)?` with at least one digit,
returning its exact value and the rest of the input.
Legacy octal literals (leading-zero integers, sloppy mode) are not
modelled: the state machine never produces a leading-zero literal. -/
def lexNum (s : Str) : Option (Frac × Str) :=
  let ds1 := s.takeWhile Char.isDigit
  let rest1 := s.drop ds1.length
  match rest1 with
  | '.' :: t =>
      let ds2 := t.takeWhile Char.isDigit
      let rest2 := t.drop ds2.length
      if ds1 = [] && ds2 = [] then none
      else some (⟨digitsVal ds1 * 10 ^ ds2.length + digitsVal ds2, 10 ^ ds2.length⟩, rest2)
  | _ =>
      if ds1 = [] then none
      else some (⟨digitsVal ds1, 1⟩, rest1)

/-- Lexer for the whitelisted character set, with maximal munch for
`**`, `++` and `--`.  `none` models a lexing `SyntaxError`. -/
def lex : Nat → Str → Option (List Tok)
  | _, [] => some []
  | 0, _ => none
  | fuel + 1, s@(c :: t) =>
    if c.isDigit || c = '.' then
      match lexNum s with
      | some (q, rest) => do pure (Tok.num q :: (← lex fuel rest))
      | none => none
    else
      match c, t with
      | '*', '*' :: t' => do pure (Tok.pow :: (← lex fuel t'))
      | '+', '+' :: t' => do pure (Tok.dplus :: (← lex fuel t'))
      | '-', '-' :: t' => do pure (Tok.dminus :: (← lex fuel t'))
      | '*', _ => do pure (Tok.star :: (← lex fuel t))
      | '+', _ => do pure (Tok.plus :: (← lex fuel t))
      | '-', _ => do pure (Tok.minus :: (← lex fuel t))
      | '/', _ => do pure (Tok.slash :: (← lex fuel t))
      | '(', _ => do pure (Tok.lparen :: (← lex fuel t))
      | ')', _ => do pure (Tok.rparen :: (← lex fuel t))
      | _, _ => none

/-! ## Parsing and evaluation

Recursive-descent parser following the JavaScript expression grammar on
this token set: additive over multiplicative over exponentiation and
unary, with `**` right-associative and forbidding a unary-signed left
operand, and parenthesised subexpressions.  `none` models a
`SyntaxError` of `new Function`. -/

mutual

/-- Primary expression: numeric literal or parenthesised expression. -/
def parsePrimary : Nat → List Tok → Option (Frac × List Tok)
  | 0, _ => none
  | fuel + 1, ts =>
    match ts with
    | Tok.num q :: rest => some (q, rest)
    | Tok.lparen :: rest =>
        match parseAddSub fuel rest with
        | some (v, Tok.rparen :: rest') => some (v, rest')
        | _ => none
    | _ => none

/-- Unary expression: a chain of `+`/`-` signs ending in a primary
expression.  Per the grammar a signed operand never attaches a following
`**` (so in `-2**2` the `**` is left unconsumed and the whole parse
fails, as in JavaScript where `-2**2` is a `SyntaxError`). -/
def parseUnary : Nat → List Tok → Option (Frac × List Tok)
  | 0, _ => none
  | fuel + 1, ts =>
    match ts with
    | Tok.plus :: rest => parseUnary fuel rest
    | Tok.minus :: rest => do
        let (v, rest') ← parseUnary fuel rest
        pure (fNeg v, rest')
    | _ => parsePrimary fuel ts

/-- Exponentiation level, `ExponentiationExpression`: either a signed
unary expression (no `**`), or a primary followed by a right-associative
`**` whose right operand is again an exponentiation expression. -/
def parseExpo : Nat → List Tok → Option (Frac × List Tok)
  | 0, _ => none
  | fuel + 1, ts =>
    match ts with
    | Tok.plus :: _ => parseUnary fuel ts
    | Tok.minus :: _ => parseUnary fuel ts
    | _ => do
        let (v, rest) ← parsePrimary fuel ts
        match rest with
        | Tok.pow :: rest' => do
            let (v2, rest'') ← parseExpo fuel rest'
            pure (fPow v v2, rest'')
        | _ => pure (v, rest)

/-- Multiplicative level: left-associative `*` and `/`. -/
def parseMulDiv : Nat → List Tok → Option (Frac × List Tok)
  | 0, _ => none
  | fuel + 1, ts => do
    let (v, rest) ← parseExpo fuel ts
    parseMulDivLoop fuel v rest

/-- Loop of `parseMulDiv`. -/
def parseMulDivLoop : Nat → Frac → List Tok → Option (Frac × List Tok)
  | 0, _, _ => none
  | fuel + 1, v, ts =>
    match ts with
    | Tok.star :: rest => do
        let (v2, rest') ← parseExpo fuel rest
        parseMulDivLoop fuel (fMul v v2) rest'
    | Tok.slash :: rest => do
        let (v2, rest') ← parseExpo fuel rest
        parseMulDivLoop fuel (fDiv v v2) rest'
    | _ => some (v, ts)

/-- Additive level: left-associative `+` and `-`. -/
def parseAddSub : Nat → List Tok → Option (Frac × List Tok)
  | 0, _ => none
  | fuel + 1, ts => do
    let (v, rest) ← parseMulDiv fuel ts
    parseAddSubLoop fuel v rest

/-- Loop of `parseAddSub`. -/
def parseAddSubLoop : Nat → Frac → List Tok → Option (Frac × List Tok)
  | 0, _, _ => none
  | fuel + 1, v, ts =>
    match ts with
    | Tok.plus :: rest => do
        let (v2, rest') ← parseMulDiv fuel rest
        parseAddSubLoop fuel (fAdd v v2) rest'
    | Tok.minus :: rest => do
        let (v2, rest') ← parseMulDiv fuel rest
        parseAddSubLoop fuel (fSub v v2) rest'
    | _ => some (v, ts)

end

/-- Evaluate a token list as a complete expression; `none` is a syntax
error. -/
def evalToks (ts : List Tok) : Option Frac :=
  match parseAddSub (8 * (ts.length + 1)) ts with
  | some (v, []) => some v
  | _ => none

/-! ## Result formatting -/

/-- Decimal digit characters of `n`, most significant first; the fuel is
structural so that the definition reduces in the kernel (`n + 1` units of
fuel always suffice since `n / 10 < n` for `n ≥ 10`). -/
def natToStrAux : Nat → Nat → Str
  | 0, _ => []
  | fuel + 1, n =>
    if n < 10 then [Nat.digitChar n]
    else natToStrAux fuel (n / 10) ++ [Nat.digitChar (n % 10)]

/-- Decimal digit characters of `n`, most significant first. -/
def natToStr (n : Nat) : Str := natToStrAux (n + 1) n

/-- JavaScript `Number.prototype.toString` for an integer
(plain decimal form; exponent notation beyond `1e21` is not modelled,
no claim reaches it). -/
def intToStr (n : Int) : Str :=
  if n < 0 then '-' :: natToStr n.natAbs else natToStr n.natAbs

/-- Exactly `k` decimal digits of `m` (mod `10^k`), zero padded: the
fractional digit block produced by `toFixed`. -/
def fracDigits : Nat → Nat → Str
  | 0, _ => []
  | k + 1, m => fracDigits k (m / 10) ++ [Nat.digitChar (m % 10)]

/-- Remove trailing `'0'` characters (the effect of
`parseFloat(x.toFixed(10)).toString()` on the fractional part). -/
def dropTrailingZeros (s : Str) : Str :=
  (s.reverse.dropWhile (· == '0')).reverse

/-- `⌊a/b + 1/2⌋` for `b > 0`: the round-half-up rule of `toFixed`
("if there are two such n, pick the larger n"). -/
def roundHalfUp (a b : Int) : Int := Int.fdiv (2 * a + b) (2 * b)

/-- Euclid's algorithm with structural fuel (`m + 1` units always
suffice), so that the definition reduces both in the kernel and in the
elaborator. -/
def gcdFuel : Nat → Nat → Nat → Nat
  | 0, _, n => n
  | fuel + 1, m, n => if m = 0 then n else gcdFuel fuel (n % m) m

/-- Greatest common divisor (equal to `Nat.gcd`, see `natGcd_eq_gcd`). -/
def natGcd (m n : Nat) : Nat := gcdFuel (m + 1) m n

/-- Bring a fraction to positive denominator and lowest terms: this
recovers the mathematical value of the double that the unnormalised
pair represents, before formatting it. -/
def normalizeFrac (f : Frac) : Frac :=
  let s : Frac := if f.den < 0 then ⟨-f.num, -f.den⟩ else f
  let g : Int := Int.ofNat (natGcd s.num.natAbs s.den.natAbs)
  ⟨s.num / g, s.den / g⟩

/-- Format a finite value exactly as `evaluateExpression` does: integers
print plainly (the `Number.isInteger` branch), other values are rounded
to 10 fractional digits (`toFixed(10)`) and re-parsed, which drops
trailing zeros. -/
def formatFrac (f : Frac) : Str :=
  if (normalizeFrac f).den = 1 then intToStr (normalizeFrac f).num
  else
    let n : Int := roundHalfUp ((normalizeFrac f).num * 10 ^ 10) (normalizeFrac f).den
    if n % (10 : Int) ^ 10 = 0 then intToStr (n / (10 : Int) ^ 10)
    else
      (if n < 0 then ['-'] else []) ++ natToStr (n.natAbs / 10 ^ 10) ++
        '.' :: dropTrailingZeros (fracDigits 10 (n.natAbs % 10 ^ 10))

/-- `evaluateExpression` from `script.js`: strip whitespace, `''` gives
`'0'`, display glyphs become `* /`, the character whitelist is checked,
then the string is evaluated (the `new Function` call) and the result
formatted; a syntax error or a non-finite value (the `isFinite` check)
gives `'Error'`. -/
def evaluateExpression (expr : Str) : Str :=
  let sanitized := expr.filter (fun c => !c.isWhitespace)
  if sanitized = [] then str "0"
  else
    let sanitized := toCalcOps sanitized
    if ¬ (sanitized.all validChar) then str "Error"
    else
      match lex (sanitized.length + 1) sanitized with
      | none => str "Error"
      | some ts =>
        match evalToks ts with
        | some f => if f.den = 0 then str "Error" else formatFrac f
        | none => str "Error"

/-! ## History store -/

/-- One persisted calculation: `{expression, result, timestamp}`
(expression in display-glyph form, `Date.now()` as a natural number). -/
structure HistoryEntry where
  expression : Str
  result : Str
  timestamp : Nat
deriving DecidableEq, Repr

/-- `saveHistory`: truncates the in-memory log to `MAX_HISTORY_ITEMS =
100` entries when it exceeds the cap, then persists it (the
`localStorage.setItem` write, and the `catch` around it, have no effect
on the in-memory log and are absorbed here). -/
def saveHistory (h : List HistoryEntry) : List HistoryEntry :=
  if h.length > 100 then h.take 100 else h

/-- `addHistory(expr, result)`: skipped when the newest entry has the
same expression and result texts, otherwise a new entry is `unshift`ed
to the front and the log saved. -/
def addHistory (expr result : Str) (ts : Nat) (h : List HistoryEntry) :
    List HistoryEntry :=
  match h.head? with
  | some lastItem =>
      if lastItem.expression = expr ∧ lastItem.result = result then h
      else saveHistory (⟨expr, result, ts⟩ :: h)
  | none => saveHistory (⟨expr, result, ts⟩ :: h)

/-! ## The editing state machine

The module-level mutable variables `expression`, `currentInput` and
`history`, together with the three display regions the handlers write
(`displayExpression.textContent`, `displayPreview.textContent`,
`displayResult.textContent`). -/

structure CalcState where
  expression : Str
  currentInput : Str
  history : List HistoryEntry
  displayExpression : Str
  displayPreview : Str
  displayResult : Str
deriving DecidableEq, Repr

/-- `updateDisplay`: recomputes the three display strings from
`expression`/`currentInput` (the re-binding of DOM click handlers has no
state effect and is not modelled; the click dispatch itself is modelled
at the call sites via `exprTokens`). -/
def updateDisplay (s : CalcState) : CalcState :=
  let preview : Str :=
    if s.currentInput ≠ [] ∧ numLitB s.currentInput then
      let result := evaluateExpression (s.expression ++ s.currentInput)
      if result ≠ str "Error" ∧ result ≠ s.currentInput
      then str "= " ++ result else []
    else if s.currentInput = [] ∧ s.expression ≠ [] then
      match s.expression.getLast? with
      | some lastChar =>
          if isOpC lastChar then
            let completeExpr := s.expression.dropLast
            if completeExpr ≠ [] then
              let result := evaluateExpression completeExpr
              if result ≠ str "Error" then str "= " ++ result else []
            else []
          else []
      | none => []
    else []
  { s with
    displayExpression := glyphs s.expression
    displayPreview := preview
    displayResult := if s.currentInput = [] then str "0" else s.currentInput }

/-- `handleNumber(digit)`: length cap 16, at most one decimal point,
`'.'` on empty input seeds `'0.'`, no duplicated leading zero, a lone
`'0'` is replaced by a nonzero digit. -/
def handleNumber (digit : Str) (s : CalcState) : CalcState :=
  if s.currentInput.length ≥ 16 then s
  else if digit = str "." ∧ s.currentInput.contains '.' then s
  else if digit = str "." ∧ s.currentInput = [] then
    updateDisplay { s with currentInput := str "0." }
  else if digit = str "0" ∧ s.currentInput = str "0" then s
  else if s.currentInput = str "0" ∧ digit ≠ str "." then
    updateDisplay { s with currentInput := digit }
  else
    updateDisplay { s with currentInput := s.currentInput ++ digit }

/-- The lookup `opMap[operator] || operator` of `handleOperator`. -/
def opToCalc (op : Str) : Str :=
  if op = str "×" then str "*"
  else if op = str "÷" then str "/"
  else op

/-- `handleOperator(operator)`: flush a pending `currentInput` into
`expression`, refuse to start an empty expression with an operator,
append the canonical operator. -/
def handleOperator (operator : Str) (s : CalcState) : CalcState :=
  let calcOperator := opToCalc operator
  if s.currentInput ≠ [] then
    updateDisplay { s with
      expression := s.expression ++ s.currentInput ++ calcOperator
      currentInput := [] }
  else if s.expression = [] then s
  else updateDisplay { s with expression := s.expression ++ calcOperator }

/-- `handleEquals`: flush `currentInput`, display `'0'` for an empty
expression, otherwise evaluate, write the display regions, record
history unless the result is `'Error'`, and reset, seeding
`currentInput` with the result (or `''` on error).  `handleEquals` never
calls `updateDisplay`, so the result stays on screen. -/
def handleEquals (ts : Nat) (s : CalcState) : CalcState :=
  let s :=
    if s.currentInput ≠ [] then
      { s with expression := s.expression ++ s.currentInput, currentInput := [] }
    else s
  if s.expression = [] then { s with displayResult := str "0" }
  else
    let result := evaluateExpression s.expression
    let s := { s with
      displayExpression := glyphs s.expression
      displayResult := result }
    let s :=
      if result ≠ str "Error" then
        { s with history := addHistory (glyphs s.expression) result ts s.history }
      else s
    { s with
      expression := []
      currentInput := if result ≠ str "Error" then result else [] }

/-- `handleClear`: reset both strings. -/
def handleClear (s : CalcState) : CalcState :=
  updateDisplay { s with currentInput := [], expression := [] }

/-- `handleBackspace`.  With a pending `currentInput` its last character
is dropped.  Otherwise, on a non-empty `expression`: a trailing operator
is dropped; for a trailing digit the code takes `remaining =
expression.slice(0, -1)` and matches `/[+\-*\/]+$/` against it, i.e. it
finds the maximal run of operator characters at the very end of
`remaining` (not the nearest operator anywhere before the digit).  When
the run `R` is nonempty, `lastIndexOf(R)` is the position of that suffix
occurrence, `remaining.length - R.length`, so `currentInput` receives
everything after the first character of the run plus the removed digit,
and `expression` is cut just after that first character; when the run is
empty (in particular whenever the trailing numeric literal has two or
more digits), the whole of `expression` migrates into `currentInput`. -/
def handleBackspace (s : CalcState) : CalcState :=
  if s.currentInput ≠ [] then
    updateDisplay { s with currentInput := s.currentInput.dropLast }
  else if s.expression ≠ [] then
    match s.expression.getLast? with
    | none => s
    | some lastChar =>
      if isOpC lastChar then
        updateDisplay { s with expression := s.expression.dropLast }
      else
        let remaining := s.expression.dropLast
        let opRun := (remaining.reverse.takeWhile isOpC).reverse
        if opRun ≠ [] then
          let lastOpIndex := remaining.length - opRun.length
          let numPart := remaining.drop (lastOpIndex + 1) ++ [lastChar]
          updateDisplay { s with
            currentInput := numPart
            expression := remaining.take (lastOpIndex + 1) }
        else
          updateDisplay { s with
            currentInput := remaining ++ [lastChar]
            expression := [] }
  else s

/-- `loadFromHistory(index)`: recall a stored expression; out-of-range
indices (`history[index]` is `undefined`) do nothing. -/
def loadFromHistory (index : Nat) (s : CalcState) : CalcState :=
  match s.history.get? index with
  | some item =>
      updateDisplay { s with expression := item.expression, currentInput := [] }
  | none => s

/-! ## Token-click editing -/

/-- The token split of `renderExpressionHTML`:
`displayExpr.split(/([+\-×÷()])/g).filter(t => t)` - the expression in
display glyphs cut at every operator or parenthesis, delimiters kept,
empty pieces dropped.  Each rendered token's `data-index` is its
position in this list, which is the index the click handlers receive. -/
def splitKeepDelims (s : Str) : List Str :=
  match s with
  | [] => [[]]
  | c :: t =>
    if c = '+' || c = '-' || c = '×' || c = '÷' || c = '(' || c = ')' then
      [] :: [c] :: splitKeepDelims t
    else
      match splitKeepDelims t with
      | chunk :: rest => (c :: chunk) :: rest
      | [] => [[c]]

/-- Rendered token list of an expression already in display glyphs. -/
def exprTokens (displayExpr : Str) : List Str :=
  (splitKeepDelims displayExpr).filter (fun t => t ≠ [])

/-- `handleNumberClick(value, index)`.  The source first flushes a
pending `currentInput` into `expression` — note that the flush does
NOT clear `currentInput` — and then constructs
`new RegExp('^([+\-*/]*)(' + value.replace('.', '\\.') + ')([+\-*/]*)$')`.
The pattern is built from a plain STRING literal, in which `\-` is a
NonEscapeCharacter and collapses to `-`, so the constructor receives a
pattern containing the character class `[+-*/]`.  Its ClassRange from
`'+'` (U+002B) down to `'*'` (U+002A) is out of order, an early error:
the `RegExp` constructor throws a SyntaxError on every single call
(the other regexes of the file are regex LITERALS, where `\-` keeps
its backslash, and are unaffected).  The uncaught exception aborts the
handler after the flush and before the match, the removal, the
leading-operator strip, the assignment `currentInput = value` and
`updateDisplay`; the module-level globals mutate in place, so the only
state change that survives the throw is the flush.  `value` is read
only by the pure `value.replace` call and `index` is never read, so
neither affects the state. -/
def handleNumberClick (value : Str) (index : Nat) (s : CalcState) : CalcState :=
  if s.currentInput ≠ [] then { s with expression := s.expression ++ s.currentInput }
  else s

/-- The scan loop of `handleOperatorClick`: walk the expression, count
operator characters, and replace the one whose count equals `index` by
`newCalcOp`. -/
def replaceNthOp (e : Str) (count index : Nat) (newCalcOp : Str) : Str :=
  match e with
  | [] => []
  | c :: t =>
    if isOpC c then
      if count = index then newCalcOp ++ replaceNthOp t (count + 1) index newCalcOp
      else c :: replaceNthOp t (count + 1) index newCalcOp
    else c :: replaceNthOp t count index newCalcOp

/-- The display-glyph operator cycle `+ → - → × → ÷ → +`. -/
def opCycle : List Str := [str "+", str "-", str "×", str "÷"]

/-- `handleOperatorClick(oldOp, index)`: find `oldOp` in the cycle
(unknown operators do nothing), take the next glyph, and replace the
`index`-th operator character (0-based scan order) of `expression` by
its canonical form. -/
def handleOperatorClick (oldOp : Str) (index : Nat) (s : CalcState) : CalcState :=
  match opCycle.indexOf? oldOp with
  | none => s
  | some currentIndex =>
      let newOp := opCycle.getD ((currentIndex + 1) % opCycle.length) []
      let newCalcOp := opToCalc newOp
      updateDisplay { s with expression := replaceNthOp s.expression 0 index newCalcOp }

/-! ## Loading history from the store

`loadHistory` reads the stored string and assigns `history =
JSON.parse(stored)` inside a `try`/`catch`.  Because JavaScript is
untyped, the in-memory `history` after loading can be *any* JSON value,
not only an array of entries, so the load path is modelled on a JSON
value type.  `JSON.parse` itself is standard library behaviour, embedded
below as a parser for the JSON grammar (numbers become exact fractions;
the double rounding of huge literals is outside the model). -/

inductive Json where
  | null
  | bool (b : Bool)
  | num (q : Frac)
  | text (s : Str)
  | arr (elems : List Json)
  | obj (fields : List (Str × Json))

/-- JSON whitespace. -/
def isWsJ (c : Char) : Bool :=
  c = ' ' || c = '\t' || c = '\n' || c = '\r'

/-- Value of a hexadecimal digit. -/
def hexVal (c : Char) : Option Nat :=
  if c.isDigit then some (c.toNat - '0'.toNat)
  else if 'a' ≤ c ∧ c ≤ 'f' then some (c.toNat - 'a'.toNat + 10)
  else if 'A' ≤ c ∧ c ≤ 'F' then some (c.toNat - 'A'.toNat + 10)
  else none

/-- Parse the body of a JSON string (after the opening quote), handling
the escape sequences; unpaired `\u` surrogates are out of scope (no
claim involves them). -/
def pString : Nat → Str → Option (Str × Str)
  | 0, _ => none
  | fuel + 1, s =>
    match s with
    | [] => none
    | '"' :: t => some ([], t)
    | '\\' :: e :: t =>
      (match e, t with
       | 'u', h1 :: h2 :: h3 :: h4 :: t' => do
          let v1 ← hexVal h1
          let v2 ← hexVal h2
          let v3 ← hexVal h3
          let v4 ← hexVal h4
          let (r, rest) ← pString fuel t'
          pure (Char.ofNat (((v1 * 16 + v2) * 16 + v3) * 16 + v4) :: r, rest)
       | 'u', _ => none
       | _, _ => do
          let c ←
            match e with
            | '"' => some '"'
            | '\\' => some '\\'
            | '/' => some '/'
            | 'b' => some (Char.ofNat 8)
            | 'f' => some (Char.ofNat 12)
            | 'n' => some '\n'
            | 'r' => some (Char.ofNat 13)
            | 't' => some '\t'
            | _ => none
          let (r, rest) ← pString fuel t
          pure (c :: r, rest))
    | c :: t =>
      if c.toNat < 32 then none
      else do
        let (r, rest) ← pString fuel t
        pure (c :: r, rest)

/-- Parse a JSON number (integer part with no leading zero, optional
fraction, optional exponent) into an exact fraction. -/
def pNumber (s : Str) : Option (Frac × Str) :=
  let (neg, s1) := match s with | '-' :: t => (true, t) | _ => (false, s)
  let intPart : Option (Str × Str) :=
    match s1 with
    | '0' :: t => if (t.headD ' ').isDigit then none else some (['0'], t)
    | c :: t =>
        if c.isDigit then some (c :: t.takeWhile Char.isDigit, t.dropWhile Char.isDigit)
        else none
    | [] => none
  match intPart with
  | none => none
  | some (ids, r1) =>
    let (fds, r2) : Str × Str :=
      match r1 with
      | '.' :: t => (t.takeWhile Char.isDigit, t.dropWhile Char.isDigit)
      | _ => ([], r1)
    if r1 ≠ r2 && fds = [] then none
    else
      let (expOk, expNeg, eds, r3) : Bool × Bool × Str × Str :=
        match r2 with
        | 'e' :: t | 'E' :: t =>
          (match t with
           | '-' :: t' => (t'.takeWhile Char.isDigit ≠ [], true,
               t'.takeWhile Char.isDigit, t'.dropWhile Char.isDigit)
           | '+' :: t' => (t'.takeWhile Char.isDigit ≠ [], false,
               t'.takeWhile Char.isDigit, t'.dropWhile Char.isDigit)
           | _ => (t.takeWhile Char.isDigit ≠ [], false,
               t.takeWhile Char.isDigit, t.dropWhile Char.isDigit))
        | _ => (true, false, [], r2)
      if ¬ expOk then none
      else
        let mantissa : Int := digitsVal ids * 10 ^ fds.length + digitsVal fds
        let mantissa := if neg then -mantissa else mantissa
        let e := digitsVal eds
        if expNeg then some (⟨mantissa, (10 : Int) ^ fds.length * 10 ^ e⟩, r3)
        else some (⟨mantissa * 10 ^ e, (10 : Int) ^ fds.length⟩, r3)

mutual

/-- Parse one JSON value at the head of the input. -/
def pVal : Nat → Str → Option (Json × Str)
  | 0, _ => none
  | fuel + 1, s =>
    match s with
    | 'n' :: 'u' :: 'l' :: 'l' :: t => some (Json.null, t)
    | 't' :: 'r' :: 'u' :: 'e' :: t => some (Json.bool true, t)
    | 'f' :: 'a' :: 'l' :: 's' :: 'e' :: t => some (Json.bool false, t)
    | '"' :: t => do
        let (cs, rest) ← pString fuel t
        pure (Json.text cs, rest)
    | '[' :: t => do
        let (es, rest) ← pElems fuel true (t.dropWhile isWsJ)
        pure (Json.arr es, rest)
    | '{' :: t => do
        let (fs, rest) ← pMembers fuel true (t.dropWhile isWsJ)
        pure (Json.obj fs, rest)
    | _ => do
        let (q, rest) ← pNumber s
        pure (Json.num q, rest)

/-- Parse array elements up to the closing bracket (`first` marks the
position directly after `[`, where `]` is allowed). -/
def pElems : Nat → Bool → Str → Option (List Json × Str)
  | 0, _, _ => none
  | fuel + 1, first, s =>
    match s with
    | ']' :: t => if first then some ([], t) else none
    | _ => do
        let (v, rest) ← pVal fuel s
        match rest.dropWhile isWsJ with
        | ']' :: t => pure ([v], t)
        | ',' :: t => do
            let (vs, rest') ← pElems fuel false (t.dropWhile isWsJ)
            pure (v :: vs, rest')
        | _ => none

/-- Parse object members up to the closing brace. -/
def pMembers : Nat → Bool → Str → Option (List (Str × Json) × Str)
  | 0, _, _ => none
  | fuel + 1, first, s =>
    match s with
    | '}' :: t => if first then some ([], t) else none
    | '"' :: t => do
        let (k, rest) ← pString fuel t
        match rest.dropWhile isWsJ with
        | ':' :: t' => do
            let (v, rest') ← pVal fuel (t'.dropWhile isWsJ)
            match rest'.dropWhile isWsJ with
            | '}' :: t'' => pure ([(k, v)], t'')
            | ',' :: t'' => do
                let (fs, rest'') ← pMembers fuel false (t''.dropWhile isWsJ)
                pure ((k, v) :: fs, rest'')
            | _ => none
        | _ => none
    | _ => none

end

/-- `JSON.parse`: one JSON value surrounded by whitespace and nothing
else; `none` is the thrown `SyntaxError`. -/
def parseJson (s : Str) : Option Json :=
  match pVal (2 * s.length + 2) (s.dropWhile isWsJ) with
  | some (v, rest) => if rest.dropWhile isWsJ = [] then some v else none
  | none => none

/-- `loadHistory`, as a function of the stored value (`none`: the key is
absent and `getItem` returned `null`), returning the in-memory `history`
afterwards given that it starts as the initial `[]`.  Only a thrown
`SyntaxError` (and the falsy stored values) leaves/resets the empty log;
a successfully parsed value of any shape is assigned to `history`
unchecked. -/
def loadHistoryJs (stored : Option Str) : Json :=
  match stored with
  | none => Json.arr []
  | some s =>
      if s = [] then Json.arr []
      else
        match parseJson s with
        | some v => v
        | none => Json.arr []

/-- Field lookup in a parsed JSON object. -/
def lookupField (fields : List (Str × Json)) (k : Str) : Option Json :=
  (fields.find? (fun p => p.1 = k)).map (fun p => p.2)

/-- Whether a JSON value is one serialized history entry.  This follows
the specification's words (section 6): an object with string fields
`expression` and `result` and an integer field `timestamp`. -/
def specEntryJson (j : Json) : Bool :=
  match j with
  | Json.obj fs =>
      (match lookupField fs (str "expression") with
       | some (Json.text _) => true
       | _ => false) &&
      (match lookupField fs (str "result") with
       | some (Json.text _) => true
       | _ => false) &&
      (match lookupField fs (str "timestamp") with
       | some (Json.num f) => f.den != 0 && f.num % f.den == 0
       | _ => false)
  | _ => false

/-- Whether a JSON value is a well-formed serialized history log: an
array of serialized entries.  This follows the specification's words
(section 6), for comparison with what `loadHistory` actually accepts. -/
def specWellFormedLog (j : Json) : Bool :=
  match j with
  | Json.arr es => es.all specEntryJson
  | _ => false

/-- The deduplication test of `addHistory`: same expression text and
same result text. -/
def sameCalc (a b : HistoryEntry) : Prop :=
  a.expression = b.expression ∧ a.result = b.result

instance (a b : HistoryEntry) : Decidable (sameCalc a b) :=
  inferInstanceAs (Decidable (_ ∧ _))

/-- The digits after the decimal point of a formatted result (empty when
there is no point). -/
def fracPartOf (s : Str) : Str :=
  (s.dropWhile (fun c => c != '.')).drop 1

/-- 101 pairwise distinct calculations, used to witness the history cap. -/
def es101 : List HistoryEntry :=
  (List.range 101).map (fun i => ⟨natToStr i, str "r", i⟩)

/-- The editing state machine step used when folding a sequence of
completed calculations into the history store. -/
def addStep (h : List HistoryEntry) (e : HistoryEntry) : List HistoryEntry :=
  addHistory e.expression e.result e.timestamp h

/-! # Theorems -/

/-! ## Generic facts about the embedded operations -/

@[simp]
theorem updateDisplay_expression (s : CalcState) :
    (updateDisplay s).expression = s.expression := rfl

@[simp]
theorem updateDisplay_currentInput (s : CalcState) :
    (updateDisplay s).currentInput = s.currentInput := rfl

@[simp]
theorem updateDisplay_history (s : CalcState) :
    (updateDisplay s).history = s.history := rfl

theorem saveHistory_cons_head (x : HistoryEntry) (l : List HistoryEntry) :
    (saveHistory (x :: l)).head? = some x := by
  unfold saveHistory
  split
  · simp [List.take_succ_cons]
  · rfl

theorem headKeys_addHistory (expr result : Str) (ts : Nat) (h : List HistoryEntry) :
    (addHistory expr result ts h).head?.map (fun e => (e.expression, e.result)) =
      some (expr, result) := by
  unfold addHistory
  cases h with
  | nil => simp [saveHistory_cons_head]
  | cons a rest =>
    simp only [List.head?_cons]
    split
    · next hdup => simp [hdup.1, hdup.2]
    · simp [saveHistory_cons_head]

/-- Claim C10: when `index` has no corresponding history entry,
`loadFromHistory` leaves the state (expression, current input, history
and all display regions) unchanged. -/
theorem loadFromHistory_out_of_range (s : CalcState) (index : Nat)
    (h : s.history.get? index = none) : loadFromHistory index s = s := by
  unfold loadFromHistory
  rw [h]

/-- Witness for C10 at a concrete state with an empty history. -/
theorem loadFromHistory_out_of_range_witness :
    (⟨[], [], [], [], [], str "0"⟩ : CalcState).history.get? 3 = none ∧
      loadFromHistory 3 (⟨[], [], [], [], [], str "0"⟩ : CalcState) =
        (⟨[], [], [], [], [], str "0"⟩ : CalcState) :=
  ⟨rfl, loadFromHistory_out_of_range _ 3 rfl⟩

/-- Counterexample for C9: the stored string `'42'` is not a well-formed
serialized history log, yet `loadHistory` does not fall back to the
empty log: `JSON.parse` succeeds and the number `42` itself becomes the
in-memory history. -/
theorem loadHistory_nonlog_counterexample :
    specWellFormedLog (loadHistoryJs (some (str "42"))) = false ∧
      loadHistoryJs (some (str "42")) = Json.num ⟨42, 1⟩ ∧
      loadHistoryJs (some (str "42")) ≠ Json.arr [] := by
  refine ⟨rfl, rfl, ?_⟩
  intro h
  rw [show loadHistoryJs (some (str "42")) = Json.num ⟨42, 1⟩ from rfl] at h
  exact Json.noConfusion h

/-- Claim C9 as amended: `loadHistory` is a total function of the stored
value (exceptions are caught inside), and whenever the stored value is
absent, empty, or fails to parse as JSON, the resulting in-memory
history is the empty log.  (A stored value that parses as JSON but is
not a well-formed history log is assigned to `history` unchecked, see
the counterexample.) -/
theorem loadHistory_fallback_empty (stored : Option Str)
    (h : stored = none ∨ ∃ s, stored = some s ∧ (s = [] ∨ parseJson s = none)) :
    loadHistoryJs stored = Json.arr [] := by
  rcases h with h | ⟨s, hs, h⟩
  · rw [h]; rfl
  · subst hs
    rcases h with h | h
    · subst h; rfl
    · show (if s = [] then Json.arr []
          else match parseJson s with
               | some v => v
               | none => Json.arr []) = Json.arr []
      split
      · rfl
      · rw [h]

/-- Witness for C9 at the unparsable stored string `'oops'`. -/
theorem loadHistory_fallback_empty_witness :
    parseJson (str "oops") = none ∧ loadHistoryJs (some (str "oops")) = Json.arr [] :=
  ⟨rfl, loadHistory_fallback_empty (some (str "oops")) (Or.inr ⟨_, rfl, Or.inr rfl⟩)⟩

/-- Claim C2, evaluated at the failing input.  Pressing
`1 2 + 3 4 5 + ⌫` from the cleared state reaches the state with
`expression = '12+345'` and empty `currentInput`.  One more backspace
does not move the trailing literal minus its last character (`'34'`)
into `currentInput` while truncating `expression` to `'12+'`; instead
the regex `/[+\-*\/]+$/` finds no operator run at the end of
`remaining = '12+34'`, so the *whole* expression migrates into
`currentInput` and `expression` becomes empty - no character is deleted
at all. -/
theorem handleBackspace_migrates_whole_expression :
    (handleBackspace (handleOperator (str "+")
        (handleNumber (str "5") (handleNumber (str "4") (handleNumber (str "3")
          (handleOperator (str "+") (handleNumber (str "2") (handleNumber (str "1")
            (⟨[], [], [], [], [], str "0"⟩ : CalcState)))))))))
      = (updateDisplay ⟨str "12+345", [], [], str "12+", str "= 357", str "0"⟩ : CalcState) ∧
    (handleBackspace (updateDisplay ⟨str "12+345", [], [], [], [], []⟩)).currentInput
      = str "12+345" ∧
    (handleBackspace (updateDisplay ⟨str "12+345", [], [], [], [], []⟩)).expression = [] ∧
    ¬ ((handleBackspace (updateDisplay ⟨str "12+345", [], [], [], [], []⟩)).currentInput
        = str "34" ∧
       (handleBackspace (updateDisplay ⟨str "12+345", [], [], [], [], []⟩)).expression
        = str "12+") := by
  refine ⟨?_, ?_, ?_, ?_⟩ <;> decide

/-- Claim C7, evaluated on the code.  After entering `1 2 + 3` the state
is `expression = '12+'`, `currentInput = '3'`.  The projector splits the
display expression into the token list `['12', '+']`, so the `'+'`
token is rendered with `data-index = 1` and its click dispatches
`handleOperatorClick('+', 1)`.  That call scans `expression` for the
operator character with scan-order count `1` - but `'12+'` contains
only one operator (count `0`) - so nothing is replaced: `expression`
stays `'12+'` and never becomes `'12-'`/`'12-3'`.  (Scan index `0`
would have produced `'12-'`.) -/
theorem handleOperatorClick_rendered_index_misses : 
    (handleNumber (str "3") (handleOperator (str "+") (handleNumber (str "2")
        (handleNumber (str "1") (⟨[], [], [], [], [], str "0"⟩ : CalcState))))).expression
      = str "12+" ∧
    (handleNumber (str "3") (handleOperator (str "+") (handleNumber (str "2")
        (handleNumber (str "1") (⟨[], [], [], [], [], str "0"⟩ : CalcState))))).currentInput
      = str "3" ∧
    exprTokens (glyphs (str "12+")) = [str "12", str "+"] ∧
    (exprTokens (glyphs (str "12+"))).get? 1 = some (str "+") ∧
    (handleOperatorClick (str "+") 1 (handleNumber (str "3") (handleOperator (str "+")
        (handleNumber (str "2") (handleNumber (str "1")
          (⟨[], [], [], [], [], str "0"⟩ : CalcState)))))).expression = str "12+" ∧
    (handleOperatorClick (str "+") 0 (updateDisplay
        (⟨str "12+", str "3", [], [], [], []⟩ : CalcState))).expression = str "12-" := by
  refine ⟨?_, ?_, ?_, ?_, ?_, ?_⟩ <;> decide

/-! ## Digit strings and formatting -/

theorem mem_natToStrAux_isDigit :
    ∀ (fuel n : Nat) (c : Char), c ∈ natToStrAux fuel n → c.isDigit = true := by
  intro fuel
  induction fuel with
  | zero => intro n c hc; simp [natToStrAux] at hc
  | succ fuel ih =>
    intro n c hc
    have h10 : ∀ m, m < 10 → (Nat.digitChar m).isDigit = true := by decide
    unfold natToStrAux at hc
    split at hc
    · next h =>
      simp only [List.mem_singleton] at hc
      subst hc
      exact h10 n h
    · rcases List.mem_append.mp hc with h | h
      · exact ih _ c h
      · simp only [List.mem_singleton] at h
        subst h
        exact h10 _ (Nat.mod_lt _ (by omega))

theorem mem_natToStr_isDigit {n : Nat} {c : Char} (hc : c ∈ natToStr n) :
    c.isDigit = true :=
  mem_natToStrAux_isDigit _ n c hc

theorem dot_not_mem_intToStr (n : Int) : '.' ∉ intToStr n := by
  unfold intToStr
  split
  · intro h
    rcases List.mem_cons.mp h with h | h
    · exact absurd h (by decide)
    · exact absurd (mem_natToStr_isDigit h) (by decide)
  · intro h
    exact absurd (mem_natToStr_isDigit h) (by decide)

theorem fracDigits_length : ∀ (k m : Nat), (fracDigits k m).length = k := by
  intro k
  induction k with
  | zero => intro m; rfl
  | succ k ih => intro m; simp [fracDigits, ih]

theorem dropTrailingZeros_getLast? (s : Str) :
    (dropTrailingZeros s).getLast? ≠ some '0' := by
  unfold dropTrailingZeros
  rw [List.getLast?_reverse]
  have hd := List.head?_dropWhile_not (· == '0') s.reverse
  rcases h : (s.reverse.dropWhile (· == '0')).head? with _ | c
  · simp
  · intro hc
    simp only [h] at hd
    simp only [Option.some.injEq] at hc
    subst hc
    simp at hd

theorem dropTrailingZeros_length_le (s : Str) :
    (dropTrailingZeros s).length ≤ s.length := by
  unfold dropTrailingZeros
  rw [List.length_reverse]
  calc (s.reverse.dropWhile (· == '0')).length
      ≤ s.reverse.length := (List.dropWhile_sublist _).length_le
    _ = s.length := List.length_reverse s

theorem fracPartOf_of_no_dot {s : Str} (h : '.' ∉ s) : fracPartOf s = [] := by
  unfold fracPartOf
  rw [List.dropWhile_eq_nil_iff.mpr]
  · rfl
  · intro c hc
    simp only [bne_iff_ne, ne_eq]
    rintro rfl
    exact h hc

theorem fracPartOf_append_dot {A B : Str} (h : '.' ∉ A) :
    fracPartOf (A ++ '.' :: B) = B := by
  have hA : ∀ c ∈ A, (c != '.') = true := by
    intro c hc
    simp only [bne_iff_ne, ne_eq]
    rintro rfl
    exact h hc
  unfold fracPartOf
  rw [List.dropWhile_append_of_pos hA, List.dropWhile_cons_of_neg (by simp)]
  rfl

theorem gcdFuel_eq_gcd :
    ∀ (m fuel n : Nat), m < fuel → gcdFuel fuel m n = Nat.gcd m n := by
  intro m
  induction m using Nat.strong_induction_on with
  | _ m ih =>
    intro fuel n hlt
    match fuel with
    | 0 => omega
    | fuel + 1 =>
      unfold gcdFuel
      by_cases hm : m = 0
      · subst hm; simp
      · rw [if_neg hm, ih (n % m) (Nat.mod_lt _ (by omega)) fuel m (by
          have := Nat.mod_lt n (show 0 < m by omega)
          omega)]
        exact (Nat.gcd_rec m n).symm

theorem natGcd_eq_gcd (m n : Nat) : natGcd m n = Nat.gcd m n :=
  gcdFuel_eq_gcd m (m + 1) n (by omega)

theorem normalizeFrac_den_one {f : Frac} (hden : f.den ≠ 0) (hdvd : f.den ∣ f.num) :
    (normalizeFrac f).den = 1 := by
  unfold normalizeFrac
  have hpos : (0 : Int) < (if f.den < 0 then (⟨-f.num, -f.den⟩ : Frac) else f).den := by
    split
    · next h => simp only; omega
    · next h => omega
  have hdvd' : (if f.den < 0 then (⟨-f.num, -f.den⟩ : Frac) else f).den ∣
      (if f.den < 0 then (⟨-f.num, -f.den⟩ : Frac) else f).num := by
    split
    · simpa using hdvd
    · exact hdvd
  set s : Frac := if f.den < 0 then (⟨-f.num, -f.den⟩ : Frac) else f with hs
  have hg : natGcd s.num.natAbs s.den.natAbs = s.den.natAbs := by
    rw [natGcd_eq_gcd]
    exact Nat.gcd_eq_right (Int.natAbs_dvd_natAbs.mpr hdvd')
  simp only [hg]
  have habs : Int.ofNat s.den.natAbs = s.den := by
    rw [Int.ofNat_eq_natCast]
    exact Int.natAbs_of_nonneg (by omega)
  rw [habs]
  exact Int.ediv_self (by omega)

/-- Claim C4: the five evaluator examples, and the formatting rules -
an integral result renders with no decimal point, and the fractional
part of any formatted result has at most 10 digits and no trailing
zero. -/
theorem evaluateExpression_examples_and_formatting :
    (evaluateExpression (str "") = str "0" ∧
     evaluateExpression (str "5/0") = str "Error" ∧
     evaluateExpression (str "2*3+4") = str "10" ∧
     evaluateExpression (str "10/4") = str "2.5" ∧
     evaluateExpression (str "1/3") = str "0.3333333333") ∧
    (∀ f : Frac, f.den ≠ 0 → f.den ∣ f.num → '.' ∉ formatFrac f) ∧
    (∀ f : Frac, (fracPartOf (formatFrac f)).length ≤ 10 ∧
      (fracPartOf (formatFrac f)).getLast? ≠ some '0') := by
  refine ⟨⟨by decide, by decide, by decide, by decide, by decide⟩, ?_, ?_⟩
  · intro f hden hdvd
    rw [formatFrac, if_pos (normalizeFrac_den_one hden hdvd)]
    exact dot_not_mem_intToStr _
  · intro f
    rw [formatFrac]
    split
    · rw [fracPartOf_of_no_dot (dot_not_mem_intToStr _)]
      exact ⟨by simp, by simp⟩
    · simp only
      split
      · rw [fracPartOf_of_no_dot (dot_not_mem_intToStr _)]
        exact ⟨by simp, by simp⟩
      · set n : Int :=
          roundHalfUp ((normalizeFrac f).num * 10 ^ 10) (normalizeFrac f).den with hn
        have hA : '.' ∉ ((if n < 0 then ['-'] else []) ++ natToStr (n.natAbs / 10 ^ 10)) := by
          intro hmem
          rcases List.mem_append.mp hmem with h | h
          · revert h
            split
            · intro h; exact absurd (List.mem_singleton.mp h) (by decide)
            · intro h; simp at h
          · exact absurd (mem_natToStr_isDigit h) (by decide)
        rw [fracPartOf_append_dot hA]
        constructor
        · calc (dropTrailingZeros (fracDigits 10 (n.natAbs % 10 ^ 10))).length
              ≤ (fracDigits 10 (n.natAbs % 10 ^ 10)).length := dropTrailingZeros_length_le _
            _ = 10 := fracDigits_length 10 _
        · exact dropTrailingZeros_getLast? _

/-- Witness for C4's quantified formatting clauses at the values `6/3`
and `10/4`. -/
theorem evaluateExpression_examples_and_formatting_witness :
    ((⟨6, 3⟩ : Frac).den ≠ 0 ∧ (⟨6, 3⟩ : Frac).den ∣ (⟨6, 3⟩ : Frac).num ∧
      '.' ∉ formatFrac ⟨6, 3⟩) ∧
    ((fracPartOf (formatFrac ⟨10, 4⟩)).length ≤ 10 ∧
      (fracPartOf (formatFrac ⟨10, 4⟩)).getLast? ≠ some '0') :=
  ⟨⟨by decide, ⟨2, rfl⟩,
    evaluateExpression_examples_and_formatting.2.1 ⟨6, 3⟩ (by decide) ⟨2, rfl⟩⟩,
   evaluateExpression_examples_and_formatting.2.2 ⟨10, 4⟩⟩

/-- Claim C3: whenever the flushed expression evaluates to the error
marker, `handleEquals` appends nothing to the history, resets
`expression` and `currentInput` to empty, and displays `'Error'`. -/
theorem handleEquals_error_resets (s : CalcState) (ts : Nat)
    (hErr : evaluateExpression (s.expression ++ s.currentInput) = str "Error") :
    (handleEquals ts s).history = s.history ∧
    (handleEquals ts s).expression = [] ∧
    (handleEquals ts s).currentInput = [] ∧
    (handleEquals ts s).displayResult = str "Error" := by
  rcases s with ⟨e, ci, h, d1, d2, d3⟩
  dsimp only at hErr ⊢
  by_cases hci : ci = []
  · subst hci
    rw [List.append_nil] at hErr
    by_cases he : e = []
    · subst he
      exact absurd hErr (by decide)
    · simp [handleEquals, he, hErr]
  · by_cases he : e ++ ci = []
    · exact absurd (List.append_eq_nil.mp he).2 hci
    · simp [handleEquals, hci, he, hErr]

/-- Witness for C3: the key sequence `5 ÷ 0 =` from the cleared state
displays `'Error'` and leaves the history unchanged. -/
theorem handleEquals_error_resets_witness :
    evaluateExpression
        ((handleNumber (str "0") (handleOperator (str "÷") (handleNumber (str "5")
          (⟨[], [], [], [], [], str "0"⟩ : CalcState)))).expression ++
         (handleNumber (str "0") (handleOperator (str "÷") (handleNumber (str "5")
          (⟨[], [], [], [], [], str "0"⟩ : CalcState)))).currentInput) = str "Error" ∧
    ((handleEquals 0 (handleNumber (str "0") (handleOperator (str "÷") (handleNumber (str "5")
          (⟨[], [], [], [], [], str "0"⟩ : CalcState))))).history =
        (handleNumber (str "0") (handleOperator (str "÷") (handleNumber (str "5")
          (⟨[], [], [], [], [], str "0"⟩ : CalcState)))).history ∧
      (handleEquals 0 (handleNumber (str "0") (handleOperator (str "÷") (handleNumber (str "5")
          (⟨[], [], [], [], [], str "0"⟩ : CalcState))))).expression = [] ∧
      (handleEquals 0 (handleNumber (str "0") (handleOperator (str "÷") (handleNumber (str "5")
          (⟨[], [], [], [], [], str "0"⟩ : CalcState))))).currentInput = [] ∧
      (handleEquals 0 (handleNumber (str "0") (handleOperator (str "÷") (handleNumber (str "5")
          (⟨[], [], [], [], [], str "0"⟩ : CalcState))))).displayResult = str "Error") :=
  ⟨by decide, handleEquals_error_resets _ 0 (by decide)⟩

/-- The success path of `handleEquals`: when the flushed expression is
non-empty and evaluates without error, the result is displayed and
seeded into `currentInput`, `expression` is reset, and the calculation
is recorded through `addHistory`. -/
theorem handleEquals_success_spec (ts : Nat) (s : CalcState)
    (hne : s.expression ++ s.currentInput ≠ [])
    (hok : evaluateExpression (s.expression ++ s.currentInput) ≠ str "Error") :
    (handleEquals ts s).displayResult = evaluateExpression (s.expression ++ s.currentInput) ∧
    (handleEquals ts s).expression = [] ∧
    (handleEquals ts s).currentInput = evaluateExpression (s.expression ++ s.currentInput) ∧
    (handleEquals ts s).history =
      addHistory (glyphs (s.expression ++ s.currentInput))
        (evaluateExpression (s.expression ++ s.currentInput)) ts s.history := by
  rcases s with ⟨e, ci, h, d1, d2, d3⟩
  dsimp only at hne hok ⊢
  by_cases hci : ci = []
  · subst hci
    rw [List.append_nil] at hne hok
    simp only [handleEquals]
    split_ifs with h1 h2 h3 <;>
      first
      | exact absurd rfl h1
      | exact absurd h2 hne
      | exact absurd (not_not.mp h3) hok
      | exact ⟨by simp, by simp, by simp, by simp⟩
  · simp only [handleEquals]
    split_ifs with h1 h2 h3 <;>
      first
      | exact absurd (not_not.mp h1) hci
      | exact absurd h2 hne
      | exact absurd (not_not.mp h3) hok
      | exact ⟨rfl, rfl, rfl, rfl⟩

/-- `handleNumber` threads the history through unchanged, uniformly in
its value. -/
theorem handleNumber_history_param (dg : Str) (e ci : Str) (h h' : List HistoryEntry)
    (d1 d2 d3 : Str) :
    handleNumber dg (⟨e, ci, h', d1, d2, d3⟩ : CalcState) =
      { handleNumber dg (⟨e, ci, h, d1, d2, d3⟩ : CalcState) with history := h' } := by
  simp only [handleNumber]
  split_ifs <;> rfl

/-- `handleOperator` threads the history through unchanged, uniformly in
its value. -/
theorem handleOperator_history_param (op : Str) (e ci : Str) (h h' : List HistoryEntry)
    (d1 d2 d3 : Str) :
    handleOperator op (⟨e, ci, h', d1, d2, d3⟩ : CalcState) =
      { handleOperator op (⟨e, ci, h, d1, d2, d3⟩ : CalcState) with history := h' } := by
  simp only [handleOperator]
  split_ifs <;> rfl

/-- Claim C1: from a cleared state (any history log), the key sequence
`1 2 + 3 =` displays `'15'`, leaves `expression` empty and
`currentInput = '15'`, and the newest history entry has expression
`'12+3'` and result `'15'`. -/
theorem equals_scenario_12_plus_3 (s : CalcState)
    (hE : s.expression = []) (hC : s.currentInput = []) (ts : Nat) :
    (handleEquals ts (handleNumber (str "3") (handleOperator (str "+")
      (handleNumber (str "2") (handleNumber (str "1") s))))).displayResult = str "15" ∧
    (handleEquals ts (handleNumber (str "3") (handleOperator (str "+")
      (handleNumber (str "2") (handleNumber (str "1") s))))).expression = [] ∧
    (handleEquals ts (handleNumber (str "3") (handleOperator (str "+")
      (handleNumber (str "2") (handleNumber (str "1") s))))).currentInput = str "15" ∧
    (handleEquals ts (handleNumber (str "3") (handleOperator (str "+")
      (handleNumber (str "2") (handleNumber (str "1") s))))).history.head?.map
        (fun en => (en.expression, en.result)) = some (str "12+3", str "15") := by
  rcases s with ⟨e, ci, h, d1, d2, d3⟩
  dsimp only at hE hC
  subst hE
  subst hC
  have hd : handleNumber (str "1") (⟨[], [], [], d1, d2, d3⟩ : CalcState) =
      handleNumber (str "1") (⟨[], [], [], [], [], []⟩ : CalcState) := rfl
  have s1 : handleNumber (str "1") (⟨[], [], h, d1, d2, d3⟩ : CalcState) =
      (⟨[], str "1", h, [], [], str "1"⟩ : CalcState) := by
    rw [handleNumber_history_param (str "1") [] [] [] h d1 d2 d3, hd]
    rw [show handleNumber (str "1") (⟨[], [], [], [], [], []⟩ : CalcState) =
      (⟨[], str "1", [], [], [], str "1"⟩ : CalcState) from by decide]
  rw [s1]
  have s2 : handleNumber (str "2") (⟨[], str "1", h, [], [], str "1"⟩ : CalcState) =
      (⟨[], str "12", h, [], [], str "12"⟩ : CalcState) := by
    rw [handleNumber_history_param (str "2") [] (str "1") ([]) h [] [] (str "1")]
    rw [show handleNumber (str "2") (⟨[], str "1", [], [], [], str "1"⟩ : CalcState) =
      (⟨[], str "12", [], [], [], str "12"⟩ : CalcState) from by decide]
  rw [s2]
  have s3 : handleOperator (str "+") (⟨[], str "12", h, [], [], str "12"⟩ : CalcState) =
      (⟨str "12+", [], h, str "12+", str "= 12", str "0"⟩ : CalcState) := by
    rw [handleOperator_history_param (str "+") [] (str "12") ([]) h [] [] (str "12")]
    rw [show handleOperator (str "+") (⟨[], str "12", [], [], [], str "12"⟩ : CalcState) =
      (⟨str "12+", [], [], str "12+", str "= 12", str "0"⟩ : CalcState) from by decide]
  rw [s3]
  have s4 : handleNumber (str "3") (⟨str "12+", [], h, str "12+", str "= 12", str "0"⟩ : CalcState) =
      (⟨str "12+", str "3", h, str "12+", str "= 15", str "3"⟩ : CalcState) := by
    rw [handleNumber_history_param (str "3") (str "12+") [] ([]) h (str "12+") (str "= 12") (str "0")]
    rw [show handleNumber (str "3") (⟨str "12+", [], [], str "12+", str "= 12", str "0"⟩ : CalcState) =
      (⟨str "12+", str "3", [], str "12+", str "= 15", str "3"⟩ : CalcState) from by decide]
  rw [s4]
  obtain ⟨q1, q2, q3, q4⟩ := handleEquals_success_spec ts
    (⟨str "12+", str "3", h, str "12+", str "= 15", str "3"⟩ : CalcState)
    (by dsimp only; decide) (by dsimp only; decide)
  dsimp only at q1 q3 q4
  rw [show evaluateExpression (str "12+" ++ str "3") = str "15" from by decide] at q1 q3 q4
  rw [show glyphs (str "12+" ++ str "3") = str "12+3" from by decide] at q4
  refine ⟨q1, q2, q3, ?_⟩
  rw [q4]
  exact headKeys_addHistory _ _ _ _

/-- Witness for C1 at the concretely cleared state. -/
theorem equals_scenario_12_plus_3_witness :
    ((⟨[], [], [], [], [], str "0"⟩ : CalcState).expression = [] ∧
     (⟨[], [], [], [], [], str "0"⟩ : CalcState).currentInput = []) ∧
    ((handleEquals 0 (handleNumber (str "3") (handleOperator (str "+")
      (handleNumber (str "2") (handleNumber (str "1")
        (⟨[], [], [], [], [], str "0"⟩ : CalcState)))))).displayResult = str "15" ∧
    (handleEquals 0 (handleNumber (str "3") (handleOperator (str "+")
      (handleNumber (str "2") (handleNumber (str "1")
        (⟨[], [], [], [], [], str "0"⟩ : CalcState)))))).expression = [] ∧
    (handleEquals 0 (handleNumber (str "3") (handleOperator (str "+")
      (handleNumber (str "2") (handleNumber (str "1")
        (⟨[], [], [], [], [], str "0"⟩ : CalcState)))))).currentInput = str "15" ∧
    (handleEquals 0 (handleNumber (str "3") (handleOperator (str "+")
      (handleNumber (str "2") (handleNumber (str "1")
        (⟨[], [], [], [], [], str "0"⟩ : CalcState)))))).history.head?.map
        (fun en => (en.expression, en.result)) = some (str "12+3", str "15")) :=
  ⟨⟨rfl, rfl⟩, equals_scenario_12_plus_3 (⟨[], [], [], [], [], str "0"⟩ : CalcState) rfl rfl 0⟩

/-- A digit character is not the decimal point. -/
theorem isDigit_ne_dot {c : Char} (h : c.isDigit = true) : c ≠ '.' := by
  rintro rfl
  exact absurd h (by decide)

/-- A pure digit string matches the input shape. -/
theorem inputLikeB_of_digits {s : Str} (h : ∀ c ∈ s, c.isDigit = true) :
    inputLikeB s = true := by
  simp only [inputLikeB, Bool.and_eq_true, List.all_eq_true, decide_eq_true_eq]
  constructor
  · intro c hc
    simp [h c hc]
  · rw [List.count_eq_zero_of_not_mem (fun hmem => absurd (h _ hmem) (by decide))]
    omega

/-- A single digit contributes no decimal point. -/
theorem count_dot_single_digit {c : Char} (hc : c.isDigit = true) :
    List.count '.' [c] = 0 := by
  rw [List.count_singleton]
  simp [beq_eq_false_iff_ne.mpr (isDigit_ne_dot hc)]

/-- Appending a digit preserves the input shape. -/
theorem inputLikeB_append_digit {s : Str} {c : Char} (hs : inputLikeB s = true)
    (hc : c.isDigit = true) : inputLikeB (s ++ [c]) = true := by
  simp only [inputLikeB, Bool.and_eq_true, List.all_append, List.all_cons, List.all_nil,
    Bool.and_true, decide_eq_true_eq] at hs ⊢
  refine ⟨⟨hs.1, by simp [hc]⟩, ?_⟩
  rw [List.count_append, count_dot_single_digit hc]
  have := hs.2
  omega

/-- Appending a decimal point to a dot-free shaped input preserves the
shape. -/
theorem inputLikeB_append_dot {s : Str} (hs : inputLikeB s = true)
    (hnd : '.' ∉ s) : inputLikeB (s ++ ['.']) = true := by
  simp only [inputLikeB, Bool.and_eq_true, List.all_append, List.all_cons, List.all_nil,
    Bool.and_true, decide_eq_true_eq] at hs ⊢
  refine ⟨⟨hs.1, by simp⟩, ?_⟩
  rw [List.count_append, List.count_eq_zero_of_not_mem hnd, List.count_singleton]
  simp

/-- Claim C5 as amended: digit entry (with a digit or dot key), operator
entry, clear, history recall, operator-token clicks, and number-token
clicks all keep `currentInput` inside the language of the regex,
provided it was inside before — for number-token clicks trivially so,
because `handleNumberClick` throws in its `RegExp` constructor before
the assignment `currentInput = value` and leaves `currentInput`
unchanged.  The claim's universal form is false: equals seeds
`currentInput` with the result string (which may carry a sign, see the
counterexample), backspace can migrate operator characters out of
`expression`, and percent can produce exponent notation, so those
three are excluded. -/
theorem currentInput_shape_preserved (s : CalcState)
    (hs : inputLikeB s.currentInput = true) :
    (∀ c : Char, c.isDigit = true ∨ c = '.' →
        inputLikeB ((handleNumber [c] s).currentInput) = true) ∧
    (∀ op : Str, inputLikeB ((handleOperator op s).currentInput) = true) ∧
    inputLikeB ((handleClear s).currentInput) = true ∧
    (∀ i : Nat, inputLikeB ((loadFromHistory i s).currentInput) = true) ∧
    (∀ op : Str, ∀ i : Nat,
        inputLikeB ((handleOperatorClick op i s).currentInput) = true) ∧
    (∀ v : Str, ∀ i : Nat,
        inputLikeB ((handleNumberClick v i s).currentInput) = true) := by
  rcases s with ⟨e, ci, h, d1, d2, d3⟩
  dsimp only at hs
  refine ⟨?_, ?_, ?_, ?_, ?_, ?_⟩
  · intro c hc
    simp only [handleNumber]
    split_ifs with h1 h2 h3 h4 h5 <;>
      simp only [updateDisplay_currentInput]
    · exact hs
    · exact hs
    · decide
    · exact hs
    · rcases hc with hc | hc
      · exact inputLikeB_of_digits (fun x hx => by rcases List.mem_singleton.mp hx with rfl; exact hc)
      · exfalso
        apply h5.2
        rw [hc]
        rfl
    · rcases hc with hc | hc
      · exact inputLikeB_append_digit hs hc
      · subst hc
        have hnotin : '.' ∉ ci := by
          intro hmem
          exact h2 ⟨rfl, List.elem_iff.mpr hmem⟩
        exact inputLikeB_append_dot hs hnotin
  · intro op
    simp only [handleOperator]
    split_ifs <;> simp only [updateDisplay_currentInput]
    · decide
    · exact hs
    · exact hs
  · simp only [handleClear, updateDisplay_currentInput]
    decide
  · intro i
    simp only [loadFromHistory]
    rcases hget : (List.get? h i) with _ | item
    · exact hs
    · simp only [updateDisplay_currentInput]
      decide
  · intro op i
    simp only [handleOperatorClick]
    rcases hidx : (opCycle.indexOf? op) with _ | k
    · exact hs
    · simp only [updateDisplay_currentInput]
      exact hs
  · intro v i
    simp only [handleNumberClick]
    split <;> exact hs

/-- Counterexample for C5: after the key sequence `5 - 1 0 =` (an
equals operation), `currentInput` is the result string `'-5'`, which
does not match `^\d*\.?\d*$`. -/
theorem currentInput_shape_counterexample :
    (handleEquals 0 (handleNumber (str "0") (handleNumber (str "1") (handleOperator (str "-")
      (handleNumber (str "5") (⟨[], [], [], [], [], str "0"⟩ : CalcState)))))).currentInput
      = str "-5" ∧
    inputLikeB (str "-5") = false :=
  ⟨by decide, by decide⟩

/-- Witness for the amended C5 at the state with `currentInput = '1'`. -/
theorem currentInput_shape_preserved_witness :
    inputLikeB ((⟨[], ['1'], [], [], [], ['1']⟩ : CalcState).currentInput) = true ∧
    ('2'.isDigit = true ∨ '2' = '.') ∧
    inputLikeB ((handleNumber ['2']
      (⟨[], ['1'], [], [], [], ['1']⟩ : CalcState)).currentInput) = true ∧
    inputLikeB ((handleOperator (str "+")
      (⟨[], ['1'], [], [], [], ['1']⟩ : CalcState)).currentInput) = true ∧
    inputLikeB ((handleNumberClick (str "12") 0
      (⟨[], ['1'], [], [], [], ['1']⟩ : CalcState)).currentInput) = true :=
  ⟨by decide, Or.inl (by decide),
   (currentInput_shape_preserved _ (by decide)).1 '2' (Or.inl (by decide)),
   (currentInput_shape_preserved _ (by decide)).2.1 (str "+"),
   (currentInput_shape_preserved _ (by decide)).2.2.2.2.2 (str "12") 0⟩

/-- Claim C6 against the code, evaluated at failing inputs.  The
`RegExp` constructor on line 362 of `script.js` throws a SyntaxError
on every call (in its string-literal pattern `'\-'` collapses to `-`,
leaving the character class `[+-*/]` whose range from `'+'` (U+002B)
down to `'*'` (U+002A) is out of order), so `handleNumberClick` only
flushes a pending `currentInput` into `expression` and aborts.  First
input: after pressing `3` then `+` (expression `'3+'`, empty
`currentInput`), clicking the number token `'3'` changes the state not
at all — no removal of the literal, no strip of the now-leading `'+'`,
and `currentInput` does not become `'3'` as the claim requires.
Second input: with expression `'12+'` and pending `currentInput =
'3'`, the click only duplicates the pending input into the expression
(which becomes `'12+3'`) and leaves `currentInput` at `'3'`, not the
clicked value `'12'`. -/
theorem handleNumberClick_throws_after_flush :
    (handleNumberClick (str "3") 0
        (handleOperator (str "+") (handleNumber (str "3")
          (⟨[], [], [], [], [], str "0"⟩ : CalcState))) =
      handleOperator (str "+") (handleNumber (str "3")
        (⟨[], [], [], [], [], str "0"⟩ : CalcState))) ∧
    (handleOperator (str "+") (handleNumber (str "3")
        (⟨[], [], [], [], [], str "0"⟩ : CalcState))).expression = str "3+" ∧
    ¬ ((handleNumberClick (str "3") 0
        (handleOperator (str "+") (handleNumber (str "3")
          (⟨[], [], [], [], [], str "0"⟩ : CalcState)))).currentInput = str "3") ∧
    (handleNumberClick (str "12") 0
        (⟨str "12+", str "3", [], [], [], str "3"⟩ : CalcState)).expression
      = str "12+3" ∧
    (handleNumberClick (str "12") 0
        (⟨str "12+", str "3", [], [], [], str "3"⟩ : CalcState)).currentInput
      = str "3" ∧
    ¬ ((handleNumberClick (str "12") 0
        (⟨str "12+", str "3", [], [], [], str "3"⟩ : CalcState)).currentInput
      = str "12") := by
  refine ⟨?_, ?_, ?_, ?_, ?_, ?_⟩ <;> decide

/-- Folding consecutively distinct calculations into a history that
never reaches the cap simply stacks them newest-first: the dedup test
never fires and `saveHistory` never truncates. -/
theorem foldl_addStep_no_trunc :
    ∀ (es acc : List HistoryEntry),
      es.length + acc.length ≤ 100 →
      (∀ a, acc.head? = some a → ∀ b, es.head? = some b → ¬ sameCalc a b) →
      es.Chain' (fun a b => ¬ sameCalc a b) →
      es.foldl addStep acc = es.reverse ++ acc := by
  intro es
  induction es with
  | nil => intro acc _ _ _; simp
  | cons e tl ih =>
    intro acc hlen hhead hchain
    have hstep : addStep acc e = e :: acc := by
      unfold addStep addHistory
      cases acc with
      | nil =>
        simp only [List.head?_nil]
        unfold saveHistory
        rw [if_neg (by simp)]
      | cons a rest =>
        simp only [List.head?_cons]
        have hne' : ¬ (a.expression = e.expression ∧ a.result = e.result) :=
          hhead a rfl e rfl
        rw [if_neg hne']
        unfold saveHistory
        rw [if_neg (by
          simp only [List.length_cons]
          simp only [List.length_cons] at hlen
          omega)]
    simp only [List.foldl_cons, hstep]
    rw [ih (e :: acc) (by simp only [List.length_cons] at hlen ⊢; omega)
      (by
        intro a ha b hb
        rw [List.head?_cons, Option.some.injEq] at ha
        subst ha
        exact (List.chain'_cons'.mp hchain).1 b hb)
      (List.chain'_cons'.mp hchain).2]
    simp

/-- Reversal exchanges dropping the first element and taking all but
the last. -/
theorem reverse_drop_one (l : List HistoryEntry) :
    (l.drop 1).reverse = l.reverse.take (l.length - 1) := by
  cases l with
  | nil => rfl
  | cons a t =>
    show t.reverse = (a :: t).reverse.take (t.length + 1 - 1)
    rw [List.reverse_cons, Nat.add_sub_cancel,
      List.take_append_of_le_length (by rw [List.length_reverse])]
    simp

/-- Claim C8: the history log never exceeds 100 entries after a save,
and appending 101 distinct calculations to an empty log through
`addHistory` retains exactly the 100 newest entries, with the oldest
(first-appended) entry evicted. -/
theorem addHistory_cap :
    (∀ h : List HistoryEntry, (saveHistory h).length ≤ 100) ∧
    (∀ es : List HistoryEntry, es.length = 101 →
      es.Pairwise (fun a b => ¬ sameCalc a b) →
      (es.foldl addStep []).length = 100 ∧
      es.foldl addStep [] = (es.drop 1).reverse ∧
      (∀ e0, es.head? = some e0 → e0 ∉ es.foldl addStep [])) := by
  constructor
  · intro h
    unfold saveHistory
    split
    · simp
    · next hle => omega
  · intro es h101 hpw
    have hne : es ≠ [] := by intro h0; rw [h0] at h101; simp at h101
    have hfront : es.dropLast ++ [es.getLast hne] = es := List.dropLast_append_getLast hne
    have hlenf : es.dropLast.length = 100 := by rw [List.length_dropLast, h101]
    have hfne : es.dropLast ≠ [] := by
      intro h0; rw [h0] at hlenf; simp at hlenf
    have hch := hpw.chain'
    have hch' := hch
    rw [← hfront, List.chain'_append] at hch'
    have hfold : es.dropLast.foldl addStep [] = es.dropLast.reverse := by
      have := foldl_addStep_no_trunc es.dropLast []
        (by simp [hlenf]) (by intro a ha; simp at ha) hch'.1
      simpa using this
    rcases hrev : es.dropLast.reverse with _ | ⟨w, ws⟩
    · exfalso
      have := congrArg List.length hrev
      rw [List.length_reverse, hlenf] at this
      simp at this
    have hwlen : ws.length = 99 := by
      have := congrArg List.length hrev
      rw [List.length_reverse, hlenf] at this
      simp at this
      omega
    have hw : es.dropLast.getLast? = some w := by
      rw [← List.head?_reverse, hrev, List.head?_cons]
    have hnsame : ¬ (w.expression = (es.getLast hne).expression ∧
        w.result = (es.getLast hne).result) :=
      hch'.2.2 w (Option.mem_def.mpr hw) (es.getLast hne)
        (Option.mem_def.mpr (by rw [List.head?_cons]))
    have hmain : es.foldl addStep [] =
        es.getLast hne :: es.dropLast.reverse.take 99 := by
      conv_lhs => rw [← hfront]
      rw [List.foldl_append, hfold]
      simp only [List.foldl_cons, List.foldl_nil]
      unfold addStep addHistory
      rw [hrev, List.head?_cons]
      simp only
      rw [if_neg hnsame]
      unfold saveHistory
      rw [if_pos (by simp [hwlen])]
      simp [hwlen, List.take_succ_cons]
    have hdrop1 : (es.drop 1).reverse = es.getLast hne :: es.dropLast.reverse.take 99 := by
      conv_lhs => rw [← hfront]
      rw [List.drop_append_of_le_length (by rw [hlenf]; omega)]
      rw [List.reverse_append]
      rw [reverse_drop_one, hlenf]
      rfl
    refine ⟨?_, ?_, ?_⟩
    · rw [hmain]
      simp only [List.length_cons, List.length_take, List.length_reverse, hlenf]
      omega
    · rw [hmain, hdrop1]
    · intro e0 he0 hmem
      rw [hmain, ← hdrop1] at hmem
      rcases es with _ | ⟨a, t⟩
      · exact hne rfl
      · rw [List.head?_cons, Option.some.injEq] at he0
        subst he0
        simp only [List.drop_succ_cons, List.drop_zero, List.mem_reverse] at hmem
        exact (List.pairwise_cons.mp hpw).1 _ hmem ⟨rfl, rfl⟩

/-- Witness for C8 at 101 concrete pairwise distinct calculations. -/
theorem addHistory_cap_witness :
    (es101.length = 101 ∧
      es101.Pairwise (fun a b => ¬ sameCalc a b)) ∧
    ((es101.foldl addStep []).length = 100 ∧
      es101.foldl addStep [] = (es101.drop 1).reverse ∧
      (∀ e0, es101.head? = some e0 → e0 ∉ es101.foldl addStep [])) :=
  ⟨⟨by decide, by decide⟩, addHistory_cap.2 es101 (by decide) (by decide)⟩
